import Mathlib

/-!
# iceMika: `util/math.go`

A shallow embedding of the helpers of package `util`.

Go's `uint64` values are modelled as natural numbers; `UMax` and `UMin` only
compare and return their arguments, so no arithmetic can wrap and no reduction
modulo `2^64` is involved.  `uint64Bound` records the range of the Go type so
that the helpers can be shown to stay inside it.

`humanizeBytes` leaves the integers after its first test: from there on it
works on `float64(s)` with `math.Log`, `math.Pow`, `math.Floor`, the float64
operators and `fmt`.  The conversion `float64(s)` is modelled exactly (the
double nearest to `s`, ties to even, `roundToFloat64`); the float64 operations
and library calls are the fields of a `Float64Lib`, and every theorem about
`Bytes` holds for every such library.  A slice index out of range, which makes
the Go code panic, is the result `none`.
-/

namespace Util

/-- The number of values of Go's `uint64`: every `uint64` is a natural number
below this bound. -/
def uint64Bound : Nat := 2 ^ 64

/-- `func UMax(a, b uint64) uint64`:
`if a > b { return a } else { return b }`. -/
def UMax (a b : Nat) : Nat :=
  if a > b then a else b

/-- `func UMin(a, b uint64) uint64`:
`if a < b { return a } else { return b }`. -/
def UMin (a b : Nat) : Nat :=
  if a < b then a else b

/-- The integer value of `float64(s)` for an unsigned integer `s`: the nearest
number with at most 53 significant bits, ties going to the even mantissa.
Below `2^53` every integer is a double.  From there on the lowest
`k = log2 s - 52` bits are dropped: `q` is the 53-bit mantissa, `r` the dropped
part, and the mantissa is rounded up when `r` is more than half of `2^k`, or
exactly half with `q` odd. -/
def roundToFloat64 (s : Nat) : Nat :=
  if s < 2 ^ 53 then s
  else
    let k := Nat.log2 s - 52
    let q := s / 2 ^ k
    let r := s % 2 ^ k
    let half := 2 ^ (k - 1)
    if r > half ∨ (r = half ∧ q % 2 = 1) then (q + 1) * 2 ^ k else q * 2 ^ k

/-- The float64 operations `humanizeBytes` uses, over a carrier `F` of float64
values: `ofInt n` is the double whose value is the integer `n` (used for the
constants `10` and `1000` and for the already rounded `float64(s)`), `half` is
the constant `0.5`, `add`, `mul`, `div` and `lt` are the operators `+`, `*`,
`/` and `<`, `Log`, `Pow` and `Floor` are the functions of package `math`,
`toInt` is the conversion `int(e)`, and `fmtFixed p v` is what `fmt` prints
for `v` under the verb `%.pf`. -/
structure Float64Lib where
  F : Type
  ofInt : Nat → F
  half : F
  add : F → F → F
  mul : F → F → F
  div : F → F → F
  lt : F → F → Bool
  Log : F → F
  Pow : F → F → F
  Floor : F → F
  toInt : F → Int
  fmtFixed : Nat → F → String

/-- The conversion `float64(s)` of a `uint64`. -/
def float64 (lib : Float64Lib) (s : Nat) : lib.F :=
  lib.ofInt (roundToFloat64 s)

/-- `func LogN(n, b float64) float64`: `math.Log(n) / math.Log(b)`. -/
def LogN (lib : Float64Lib) (n b : lib.F) : lib.F :=
  lib.div (lib.Log n) (lib.Log b)

/-- The slice access `sizes[i]` for an `int` index: `none` stands for the
run-time panic on an index that is negative or not below the length. -/
def sliceIndex (sizes : List String) (i : Int) : Option String :=
  if 0 ≤ i then sizes.get? i.toNat else none

/-- `func humanizeBytes(s uint64, base float64, sizes []string) string`.
`Sprintf("%dB", s)` is the decimal digits of `s` followed by `B`;
`Sprintf(f, val, suffix)` with `f` one of `%.0f%s` and `%.1f%s` is the
rendering of `val` with 0 or 1 decimals followed by `suffix`. -/
def humanizeBytes (lib : Float64Lib) (s : Nat) (base : lib.F) (sizes : List String) :
    Option String :=
  if s < 10 then
    some (Nat.repr s ++ "B")
  else
    let e := lib.Floor (LogN lib (float64 lib s) base)
    match sliceIndex sizes (lib.toInt e) with
    | none => none
    | some suffix =>
      let val := lib.div (lib.Floor (lib.add (lib.mul (lib.div (float64 lib s) (lib.Pow base e))
        (lib.ofInt 10)) lib.half)) (lib.ofInt 10)
      let prec := if lib.lt val (lib.ofInt 10) then 1 else 0
      some (lib.fmtFixed prec val ++ suffix)

/-- The local `sizes` of `Bytes`. -/
def siSizes : List String := ["B", "KB", "MB", "GB", "TB", "PB", "EB"]

/-- `func Bytes(s uint64) string`: `humanizeBytes(s, 1000, sizes)`. -/
def Bytes (lib : Float64Lib) (s : Nat) : Option String :=
  humanizeBytes lib s (lib.ofInt 1000) siSizes

/-- What `%.pf` prints for a finite double that is not negative: the exact
value `m * 2^e` of the double, rounded to `prec` decimals, ties to even. -/
def fmtFixedFloat (prec : Nat) (x : Float) : String :=
  match x.toRatParts with
  | none => "NaN"
  | some (m, e) =>
    let num : Nat := m.toNat * 10 ^ prec * (if 0 ≤ e then 2 ^ e.toNat else 1)
    let den : Nat := if 0 ≤ e then 1 else 2 ^ (-e).toNat
    let q := num / den
    let r := num % den
    let n := if 2 * r > den ∨ (2 * r = den ∧ q % 2 = 1) then q + 1 else q
    if prec = 0 then Nat.repr n
    else
      let frac := Nat.repr (n % 10 ^ prec)
      Nat.repr (n / 10 ^ prec) ++ "." ++
        String.mk (List.replicate (prec - frac.length) '0') ++ frac

/-- An executable float64 library on the binary64 numbers of the host (the
type `Float`), with the logarithm and power of the host's C library.  It runs
`Bytes` on concrete sizes; no theorem depends on the values it computes. -/
def hostFloat64 : Float64Lib where
  F := Float
  ofInt := Float.ofNat
  half := 0.5
  add := fun a b => a + b
  mul := fun a b => a * b
  div := fun a b => a / b
  lt := fun a b => decide (a < b)
  Log := Float.log
  Pow := Float.pow
  Floor := Float.floor
  toInt := fun x =>
    if x < 0 then -(Int.ofNat (Float.toUInt64 (-x)).toNat) else Int.ofNat (Float.toUInt64 x).toNat
  fmtFixed := fmtFixedFloat

/-- The description of `Bytes` in exact arithmetic, following the words of its
specification: below 10 the decimal digits of `s` followed by `B`; from 10 on,
with `e` the largest exponent such that `1000^e ≤ s`, the value `s / 1000^e`
rounded half-up to one decimal (`t` counts its tenths), printed with one
decimal when it is below 10 and with no decimals otherwise, followed by the
`e`-th suffix.  How a value of 10 or more loses its decimal is not said, so
`noDec` (from the tenths to the digits printed) is left open. -/
def specBytes (noDec : Nat → String) (s : Nat) : String :=
  if s < 10 then
    Nat.repr s ++ "B"
  else
    let e := Nat.log 1000 s
    let t := (20 * s + 1000 ^ e) / (2 * 1000 ^ e)
    let digits := if t < 100 then Nat.repr (t / 10) ++ "." ++ Nat.repr (t % 10) else noDec t
    digits ++ (siSizes.get? e).getD ""

/-! ## Evaluation on concrete arguments -/

example : UMax 3 7 = 7 := by decide
example : UMax 7 3 = 7 := by decide
example : UMax 5 5 = 5 := by decide
example : UMax 0 (2 ^ 64 - 1) = 2 ^ 64 - 1 := by decide
example : UMin 3 7 = 3 := by decide
example : UMin 7 3 = 3 := by decide
example : UMin 5 5 = 5 := by decide
example : UMin 0 (2 ^ 64 - 1) = 0 := by decide
example : roundToFloat64 12345 = 12345 := by decide
example : Bytes hostFloat64 0 = some "0B" := by decide
example : Bytes hostFloat64 7 = some "7B" := by decide
example : specBytes Nat.repr 9 = "9B" := by decide

/-! ## Branch lemmas -/

theorem UMax_of_gt {a b : Nat} (h : a > b) : UMax a b = a := by
  unfold UMax
  exact if_pos h

theorem UMax_of_not_gt {a b : Nat} (h : ¬ a > b) : UMax a b = b := by
  unfold UMax
  exact if_neg h

theorem UMin_of_lt {a b : Nat} (h : a < b) : UMin a b = a := by
  unfold UMin
  exact if_pos h

theorem UMin_of_not_lt {a b : Nat} (h : ¬ a < b) : UMin a b = b := by
  unfold UMin
  exact if_neg h

/-- The result of `UMax` is again a `uint64` when both arguments are. -/
theorem UMax_lt_uint64Bound {a b : Nat} (ha : a < uint64Bound) (hb : b < uint64Bound) :
    UMax a b < uint64Bound := by
  by_cases h : a > b
  · rw [UMax_of_gt h]; exact ha
  · rw [UMax_of_not_gt h]; exact hb

/-- The result of `UMin` is again a `uint64` when both arguments are. -/
theorem UMin_lt_uint64Bound {a b : Nat} (ha : a < uint64Bound) (hb : b < uint64Bound) :
    UMin a b < uint64Bound := by
  by_cases h : a < b
  · rw [UMin_of_lt h]; exact ha
  · rw [UMin_of_not_lt h]; exact hb

/-- `UMax` agrees with the order-theoretic maximum. -/
theorem UMax_eq_max (a b : Nat) : UMax a b = max a b := by
  by_cases h : a > b
  · rw [UMax_of_gt h, max_eq_left (Nat.le_of_lt h)]
  · rw [UMax_of_not_gt h, max_eq_right (Nat.le_of_not_gt h)]

/-- `UMin` agrees with the order-theoretic minimum. -/
theorem UMin_eq_min (a b : Nat) : UMin a b = min a b := by
  by_cases h : a < b
  · rw [UMin_of_lt h, min_eq_left (Nat.le_of_lt h)]
  · rw [UMin_of_not_lt h, min_eq_right (Nat.le_of_not_gt h)]

/-! ## Contracts of `UMax` and `UMin` -/

/-- C1: `UMax` is the maximum on `uint64`: for every `a` and `b`, `UMax a b` is
greater than or equal to both `a` and `b`, and it is equal to `a` or to `b`. -/
theorem UMax_is_maximum (a b : Nat) :
    a ≤ UMax a b ∧ b ≤ UMax a b ∧ (UMax a b = a ∨ UMax a b = b) := by
  by_cases h : a > b
  · rw [UMax_of_gt h]
    exact ⟨Nat.le_refl a, Nat.le_of_lt h, Or.inl rfl⟩
  · rw [UMax_of_not_gt h]
    exact ⟨Nat.le_of_not_gt h, Nat.le_refl b, Or.inr rfl⟩

/-- C2: `UMin` is the minimum on `uint64`: for every `a` and `b`, `UMin a b` is
less than or equal to both `a` and `b`, and it is equal to `a` or to `b`. -/
theorem UMin_is_minimum (a b : Nat) :
    UMin a b ≤ a ∧ UMin a b ≤ b ∧ (UMin a b = a ∨ UMin a b = b) := by
  by_cases h : a < b
  · rw [UMin_of_lt h]
    exact ⟨Nat.le_refl a, Nat.le_of_lt h, Or.inl rfl⟩
  · rw [UMin_of_not_lt h]
    exact ⟨Nat.le_of_not_gt h, Nat.le_refl b, Or.inr rfl⟩

/-! ## The conversion `float64(s)` -/

/-- Integers below `2^53` are converted exactly. -/
theorem roundToFloat64_of_lt {s : Nat} (h : s < 2 ^ 53) : roundToFloat64 s = s := by
  unfold roundToFloat64
  exact if_pos h

/-- The converted value is a multiple of the spacing `2^(log2 s - 52)` of the
doubles around `s`, and it lies within half a spacing of `s`. -/
theorem roundToFloat64_near (s : Nat) :
    2 ^ (Nat.log2 s - 52) ∣ roundToFloat64 s ∧
    2 * roundToFloat64 s ≤ 2 * s + 2 ^ (Nat.log2 s - 52) ∧
    2 * s ≤ 2 * roundToFloat64 s + 2 ^ (Nat.log2 s - 52) := by
  by_cases h : s < 2 ^ 53
  · have hk : Nat.log2 s - 52 = 0 := by
      by_cases h0 : s = 0
      · subst h0; rw [Nat.log2_zero]
      · have := (Nat.log2_lt h0).2 h
        omega
    rw [roundToFloat64_of_lt h, hk]
    refine ⟨one_dvd _, ?_, ?_⟩ <;> omega
  · have h0 : s ≠ 0 := by
      rintro rfl
      exact h (by norm_num)
    have hk : 1 ≤ Nat.log2 s - 52 := by
      have := (Nat.le_log2 (k := 53) h0).2 (Nat.le_of_not_lt h)
      omega
    unfold roundToFloat64
    rw [if_neg h]
    generalize Nat.log2 s - 52 = k at hk ⊢
    obtain ⟨j, rfl⟩ : ∃ j, k = j + 1 := ⟨k - 1, by omega⟩
    have hp : 2 ^ (j + 1) = 2 * 2 ^ j := by rw [pow_succ]; ring
    have hmod := Nat.mod_lt s (show 0 < 2 ^ (j + 1) from Nat.two_pow_pos _)
    have hdm := Nat.div_add_mod s (2 ^ (j + 1))
    simp only [Nat.add_sub_cancel]
    generalize s / 2 ^ (j + 1) = q at hdm ⊢
    generalize s % 2 ^ (j + 1) = r at hdm hmod ⊢
    rw [hp] at hdm hmod ⊢
    generalize 2 ^ j = P at hdm hmod ⊢
    have e1 : (q + 1) * (2 * P) = 2 * (P * q) + 2 * P := by ring
    have e2 : q * (2 * P) = 2 * (P * q) := by ring
    have e3 : 2 * P * q = 2 * (P * q) := by ring
    rw [e3] at hdm
    generalize P * q = A at hdm e1 e2
    split_ifs with hc
    · refine ⟨Dvd.intro_left _ rfl, ?_, ?_⟩
      · rw [e1]; rcases hc with hc | ⟨hc, _⟩ <;> omega
      · rw [e1]; omega
    · refine ⟨Dvd.intro_left _ rfl, ?_, ?_⟩
      · rw [e2]; omega
      · have : r ≤ P := by
          by_contra hgt
          exact hc (Or.inl (by omega))
        rw [e2]; omega

theorem log2_pred_ten_pow_18 : Nat.log2 (10 ^ 18 - 1) = 59 := by
  rw [Nat.log2_eq_log_two]
  exact Nat.log_eq_of_pow_le_of_lt_pow (by norm_num) (by norm_num)

theorem log2_ten_pow_18 : Nat.log2 (10 ^ 18) = 59 := by
  rw [Nat.log2_eq_log_two]
  exact Nat.log_eq_of_pow_le_of_lt_pow (by norm_num) (by norm_num)

/-- `float64(999999999999999999)` is the double `1e18`: the spacing of the
doubles there is 128 and the dropped part is 127. -/
theorem roundToFloat64_pred_ten_pow_18 : roundToFloat64 (10 ^ 18 - 1) = 10 ^ 18 := by
  unfold roundToFloat64
  rw [if_neg (by norm_num), log2_pred_ten_pow_18]
  norm_num

/-- `float64(1000000000000000000)` is exact. -/
theorem roundToFloat64_ten_pow_18 : roundToFloat64 (10 ^ 18) = 10 ^ 18 := by
  unfold roundToFloat64
  rw [if_neg (by norm_num), log2_ten_pow_18]
  norm_num

/-- Both `10^18 - 1` and `10^18` are `uint64` values. -/
theorem ten_pow_18_lt_uint64Bound : 10 ^ 18 - 1 < uint64Bound ∧ 10 ^ 18 < uint64Bound := by
  unfold uint64Bound
  constructor <;> norm_num

/-- The sizes `10^18 - 1` and `10^18` convert to the same double. -/
theorem roundToFloat64_collision :
    roundToFloat64 (10 ^ 18 - 1) = roundToFloat64 (10 ^ 18) := by
  rw [roundToFloat64_pred_ten_pow_18, roundToFloat64_ten_pow_18]

/-! ## The exact description at `10^18 - 1` and `10^18` -/

theorem log_1000_ten_pow_18 : Nat.log 1000 (10 ^ 18) = 6 :=
  Nat.log_eq_of_pow_le_of_lt_pow (by norm_num) (by norm_num)

theorem log_1000_pred_ten_pow_18 : Nat.log 1000 (10 ^ 18 - 1) = 5 :=
  Nat.log_eq_of_pow_le_of_lt_pow (by norm_num) (by norm_num)

/-- At `10^18` the exact description gives exponent 6 and ten tenths. -/
theorem specBytes_ten_pow_18 (noDec : Nat → String) :
    specBytes noDec (10 ^ 18) = "1.0EB" := by
  unfold specBytes
  rw [if_neg (by norm_num), log_1000_ten_pow_18]
  have h : (20 * 10 ^ 18 + 1000 ^ 6) / (2 * 1000 ^ 6) = 10 := by norm_num
  simp only [h]
  rw [if_pos (by norm_num)]
  decide

/-- At `10^18 - 1` the exact description gives exponent 5 and 10000 tenths,
printed with no decimals and followed by `PB`. -/
theorem specBytes_pred_ten_pow_18 (noDec : Nat → String) :
    specBytes noDec (10 ^ 18 - 1) = noDec 10000 ++ "PB" := by
  unfold specBytes
  rw [if_neg (by norm_num), log_1000_pred_ten_pow_18]
  have h : (20 * (10 ^ 18 - 1) + 1000 ^ 5) / (2 * 1000 ^ 5) = 10000 := by norm_num
  simp only [h]
  rw [if_neg (by norm_num)]
  rfl

/-- No string followed by `PB` is the string `1.0EB`. -/
theorem append_PB_ne (x : String) : x ++ "PB" ≠ "1.0EB" := by
  intro h
  have h2 : (x ++ "PB").data.reverse = ("1.0EB").data.reverse := by rw [h]
  simp [String.data_append] at h2

/-! ## `Bytes` -/

/-- Below 10 the single decimal digit of `s` is the character with code
`48 + s`. -/
theorem repr_digit {s : Nat} (h : s < 10) :
    Nat.repr s = String.singleton (Char.ofNat (48 + s)) := by
  interval_cases s <;> decide

/-- Below 10 the code and the exact description agree. -/
theorem Bytes_eq_specBytes_of_lt (lib : Float64Lib) (noDec : Nat → String) {s : Nat}
    (h : s < 10) : Bytes lib s = some (specBytes noDec s) := by
  unfold Bytes humanizeBytes specBytes
  rw [if_pos h, if_pos h]

/-- From 10 on `Bytes` sees its argument only through `float64(s)`. -/
theorem Bytes_of_float64_eq (lib : Float64Lib) {s t : Nat} (hs : 10 ≤ s) (ht : 10 ≤ t)
    (h : roundToFloat64 s = roundToFloat64 t) : Bytes lib s = Bytes lib t := by
  unfold Bytes humanizeBytes float64
  rw [if_neg (by omega), if_neg (by omega), h]

end Util
